import Mathlib

/-!
A shallow embedding of the C2nxt StdString container (the SSO string core of
the repository). The implementation translation follows the natural-language
specification in spec.md, pinned down wherever possible by the observable
behaviour demanded by the unit tests in src/src/test/StringTest.h, which are
the only parts of the string subsystem present in the source tree.

Modelling conventions:
- a byte is a Nat (the tests only use ASCII values and 0);
- the physical buffer of the active representation (inline or heap) is a
  List Nat of size capacity + 1; the slot at offset m_length holds the null
  terminator after every well-formed operation;
- the heap representation is active exactly when capacity exceeds the SSO
  threshold (spec section 9: the representation is discriminated by the
  capacity-vs-threshold comparison, not a separate stored tag);
- fallible operations return Option; allocator plumbing carries no
  observable state in the claims and is modelled only through the
  deallocation flag returned by std_string_free.
-/

namespace C2nxt

/-- Modelled from the spec: STD_STRING_SHORT_OPTIMIZATION_CAPACITY, the
compile-time SSO capacity constant K (spec section 3). Its exact value is not
in the source tree; the tests only require K at most 24 (a 24-byte
construction reports capacity 24 and new_with_capacity 30 reports 30). We fix
K = 16; no claim depends on the exact value beyond that bound. -/
def STD_STRING_SHORT_OPTIMIZATION_CAPACITY : Nat := 16

/-- Shorthand for the SSO capacity constant. -/
def sso : Nat := STD_STRING_SHORT_OPTIMIZATION_CAPACITY

/-- Modelled from the spec: the StdString handle (spec section 3). m_buf is
the physical byte buffer of the active representation, of size capacity + 1
(content slots plus the terminator slot); m_length is the logical length. The
inline representation has buffer size K + 1; a heap buffer has size
capacity + 1 with capacity greater than K. -/
structure StdString where
  m_buf : List Nat
  m_length : Nat
deriving DecidableEq, Repr

/-- Modelled from the spec: capacity is the number of content bytes available
in the active representation, excluding the terminator slot. -/
def std_string_length (s : StdString) : Nat := s.m_length

/-- Capacity of the active representation (buffer size minus terminator slot). -/
def std_string_capacity (s : StdString) : Nat := s.m_buf.length - 1

/-- The logical content: the first m_length bytes of the active buffer. -/
def stdContent (s : StdString) : List Nat := s.m_buf.take s.m_length

/-- The byte stored at a physical buffer offset (0 when out of the buffer;
never the case for the offsets the theorems inspect). -/
def stdByteAt (s : StdString) (i : Nat) : Nat := s.m_buf.getD i 0

/-- Modelled from the spec: the heap representation is active exactly when
the capacity exceeds the SSO threshold (invariants 3 and 4 of spec section 3).
A true result corresponds to a live m_long heap pointer in the C struct. -/
def std_string_is_long (s : StdString) : Bool := decide (sso < std_string_capacity s)

/-- The handle invariant (spec section 3, invariants 1 to 3): the buffer has
at least K + 1 slots (every active representation offers at least the inline
capacity), the logical length fits strictly inside the buffer
(length less than or equal to capacity), and the byte at offset length is the
null terminator. -/
def std_wf (s : StdString) : Prop :=
  sso + 1 ≤ s.m_buf.length ∧ s.m_length + 1 ≤ s.m_buf.length ∧ stdByteAt s s.m_length = 0

instance (s : StdString) : Decidable (std_wf s) := by
  unfold std_wf; infer_instance

/-- Modelled from the spec: new() builds the empty string in the inline
representation with capacity K (spec section 4.2); the inline buffer starts
zeroed. -/
def std_string_new : StdString :=
  ⟨List.replicate (sso + 1) 0, 0⟩

/-- Modelled from the spec: new_with_capacity(n) builds an empty string,
eagerly heap-allocating n + 1 bytes when n exceeds K, otherwise inline
(spec section 4.2). Fresh buffers are zeroed so the terminator invariant
holds at offset 0. -/
def std_string_new_with_capacity (n : Nat) : StdString :=
  ⟨List.replicate (max n sso + 1) 0, 0⟩

/-- Modelled from the spec: from_bytes (std_string_from in the tests, covering
both the cstring and stringview constructors) copies the bytes; the heap path
is exact-fit (capacity = byte count) and a byte count at most K stays inline
with the fixed inline capacity K (spec sections 4.1 and 4.2,
test_string_new_from_cstring). -/
def std_string_from (b : List Nat) : StdString :=
  if b.length ≤ sso then ⟨b ++ 0 :: List.replicate (sso - b.length) 0, b.length⟩
  else ⟨b ++ [0], b.length⟩

/-- Modelled from the spec: clone deep-copies the content into a fresh
exact-fit buffer (inline when the length fits the SSO threshold), never
aliasing the source (spec section 4.2). -/
def std_string_clone (s : StdString) : StdString := std_string_from (stdContent s)

/-- Modelled from the spec: conversion to a raw null-terminated byte sequence
(std_string_into_cstring). A C consumer reading the returned pointer sees the
bytes up to the first 0, so the observable raw sequence is the content
truncated at the first embedded terminator. -/
def std_string_into_cstring (s : StdString) : List Nat :=
  (stdContent s).takeWhile (fun b => b != 0)

/-- Modelled from the spec: std_string_equal compares the observable
null-terminated sequences; trailing zero padding is semantically absent
(test_string_resize demands that a zero-padded resize compare equal to its
shorter pre-resize form). -/
def std_string_equal (a b : StdString) : Bool :=
  decide (std_string_into_cstring a = std_string_into_cstring b)

/-- is_empty: length is zero (spec section 4.3). -/
def std_string_is_empty (s : StdString) : Bool := s.m_length == 0

/-- is_full: length equals capacity (spec section 4.3). -/
def std_string_is_full (s : StdString) : Bool := s.m_length == std_string_capacity s

/-- Modelled from the spec and test_string_first: at(s, i) yields the byte at
offset i, including the terminator slot at offset length (the test asserts
std_string_at(string2, 4) is 0 for a length-4 string); an offset past the
terminator is out of bounds and fails. -/
def std_string_at (s : StdString) (i : Nat) : Option Nat :=
  if i ≤ s.m_length then some (stdByteAt s i) else none

/-- Modelled from the spec: first(s, n) is a fresh string holding the first
n bytes of s (test_string_first). -/
def std_string_first (s : StdString) (n : Nat) : StdString :=
  std_string_from ((stdContent s).take n)

/-- Modelled from the spec: last(s, n) is a fresh string holding the final
n bytes of s (test_string_last). -/
def std_string_last (s : StdString) (n : Nat) : StdString :=
  std_string_from ((stdContent s).drop (s.m_length - n))

/-- Modelled from the spec: find_first scans offsets upward and returns the
lowest starting offset where the needle occurs, none when absent
(spec section 4.3). -/
def std_string_find_first (s : StdString) (needle : List Nat) : Option Nat :=
  (List.range (s.m_length + 1)).find? (fun i => needle.isPrefixOf ((stdContent s).drop i))

/-- Modelled from the spec: find_last returns the highest starting offset
where the needle occurs, none when absent (spec section 4.3). -/
def std_string_find_last (s : StdString) (needle : List Nat) : Option Nat :=
  ((List.range (s.m_length + 1)).reverse).find?
    (fun i => needle.isPrefixOf ((stdContent s).drop i))

/-- Modelled from the spec: substring(s, i, n) fails when the range overruns
the length, otherwise deep-copies the n bytes starting at offset i into a
fresh exact-fit string (spec section 4.3). -/
def std_string_substring (s : StdString) (i n : Nat) : Option StdString :=
  if i + n ≤ s.m_length then some (std_string_from (((stdContent s).drop i).take n))
  else none

/-- Modelled from the spec: concatenate builds a fresh exact-fit string
holding the two contents in order (spec section 4.3). -/
def std_string_concatenate (a b : StdString) : StdString :=
  std_string_from (stdContent a ++ stdContent b)

/-- Modelled from the spec: fill overwrites the content region up to the
current capacity with the given byte, sets length = capacity and
re-terminates (spec section 4.3, test_string_fill). -/
def std_string_fill (s : StdString) (c : Nat) : StdString :=
  ⟨List.replicate (std_string_capacity s) c ++ [0], std_string_capacity s⟩

/-- Modelled from the spec: clear writes the terminator at offset 0 and sets
length = 0; the capacity and the rest of the buffer are untouched
(spec section 4.3, test_string_clear). -/
def std_string_clear (s : StdString) : StdString :=
  ⟨s.m_buf.set 0 0, 0⟩

/-- Modelled from the spec and test_string_shrink_to_fit: shrink_to_fit
demotes to the inline representation (fixed capacity K) when the length fits
the SSO threshold, and otherwise reallocates the heap buffer to the exact
length. -/
def std_string_shrink_to_fit (s : StdString) : StdString :=
  if s.m_length ≤ sso then ⟨stdContent s ++ 0 :: List.replicate (sso - s.m_length) 0, s.m_length⟩
  else ⟨stdContent s ++ [0], s.m_length⟩

/-- Modelled from the spec: reserve ensures capacity at least n; when growth
is needed the capacity becomes exactly n (no doubling on the reserve path,
spec section 4.2). -/
def std_string_reserve (s : StdString) (n : Nat) : StdString :=
  if n ≤ std_string_capacity s then s
  else ⟨stdContent s ++ 0 :: List.replicate (n - s.m_length) 0, s.m_length⟩

/-- Modelled from the spec: the amortized-doubling growth policy used by the
appending paths; the new capacity for a target length nl is
max(2 * capacity, nl) (spec section 4.2, grow_for_append). -/
def stdGrownCapacity (s : StdString) (nl : Nat) : Nat :=
  max (2 * std_string_capacity s) nl

/-- Modelled from the spec: the insertion core (precondition k at most
length, enforced by the public wrapper). Shifts the trailing bytes right,
copies the new bytes in at offset k, re-terminates, and grows the buffer by
the doubling policy when the new length exceeds the capacity
(spec section 4.3). Buffer slots past the new terminator keep their previous
bytes when no reallocation happens. -/
def stdInsert (s : StdString) (b : List Nat) (k : Nat) : StdString :=
  if s.m_length + b.length ≤ std_string_capacity s then
    ⟨((stdContent s).take k ++ b ++ (stdContent s).drop k) ++ 0 ::
      s.m_buf.drop (s.m_length + b.length + 1), s.m_length + b.length⟩
  else
    ⟨((stdContent s).take k ++ b ++ (stdContent s).drop k) ++ 0 ::
      List.replicate (stdGrownCapacity s (s.m_length + b.length) - (s.m_length + b.length)) 0,
      s.m_length + b.length⟩

/-- Modelled from the spec: insert fails when the offset exceeds the length
(spec section 4.3). -/
def std_string_insert (s : StdString) (b : List Nat) (k : Nat) : Option StdString :=
  if k ≤ s.m_length then some (stdInsert s b k) else none

/-- Modelled from the spec: the erasure core (precondition k + n at most
length): shifts the trailing bytes left over the erased range and
re-terminates at the new length; slots past the new terminator keep their
previous bytes (spec section 4.3). -/
def stdErase (s : StdString) (k n : Nat) : StdString :=
  ⟨((stdContent s).take k ++ (stdContent s).drop (k + n)) ++ 0 ::
    s.m_buf.drop (s.m_length - n + 1), s.m_length - n⟩

/-- Modelled from the spec: erase removes one byte, failing when the offset
is at or past the length (spec section 4.3). -/
def std_string_erase (s : StdString) (k : Nat) : Option StdString :=
  if k < s.m_length then some (stdErase s k 1) else none

/-- Modelled from the spec: erase_n removes n bytes starting at offset k,
failing when the range overruns the length (spec section 4.3). -/
def std_string_erase_n (s : StdString) (k n : Nat) : Option StdString :=
  if k + n ≤ s.m_length then some (stdErase s k n) else none

/-- Modelled from the spec: resize truncates and re-terminates when
shrinking; when growing it zero-fills the newly exposed bytes, re-terminates,
and grows the capacity by the doubling policy only when the new length
exceeds the capacity (spec section 4.3, test_string_resize). -/
def std_string_resize (s : StdString) (n : Nat) : StdString :=
  if n < s.m_length then ⟨s.m_buf.set n 0, n⟩
  else if n ≤ std_string_capacity s then
    ⟨(s.m_buf.take s.m_length ++ List.replicate (n - s.m_length) 0) ++ 0 :: s.m_buf.drop (n + 1), n⟩
  else
    ⟨(stdContent s ++ List.replicate (n - s.m_length) 0) ++ 0 ::
      List.replicate (stdGrownCapacity s n - n) 0, n⟩

/-- Modelled from the spec: push_back appends one byte (spec section 4.3). -/
def std_string_push_back (s : StdString) (c : Nat) : StdString :=
  stdInsert s [c] s.m_length

/-- Modelled from the spec: push_front shifts everything right and writes the
byte at offset 0 (spec section 4.3). -/
def std_string_push_front (s : StdString) (c : Nat) : StdString :=
  stdInsert s [c] 0

/-- Modelled from the spec: append is the bulk equivalent of repeated
push_back in one growth-and-copy pass (spec section 4.3). -/
def std_string_append (s : StdString) (b : List Nat) : StdString :=
  stdInsert s b s.m_length

/-- Modelled from the spec: prepend is the bulk equivalent of repeated
push_front (spec section 4.3). -/
def std_string_prepend (s : StdString) (b : List Nat) : StdString :=
  stdInsert s b 0

/-- Modelled from the spec: pop_back returns none on the empty string,
otherwise removes and returns the last byte, re-terminating at the new
length (spec section 4.3). -/
def std_string_pop_back (s : StdString) : StdString × Option Nat :=
  if s.m_length = 0 then (s, none)
  else (⟨s.m_buf.set (s.m_length - 1) 0, s.m_length - 1⟩, some (stdByteAt s (s.m_length - 1)))

/-- Modelled from the spec: pop_front returns none on the empty string,
otherwise removes and returns the first byte, shifting the rest left
(spec section 4.3). -/
def std_string_pop_front (s : StdString) : StdString × Option Nat :=
  if s.m_length = 0 then (s, none)
  else (stdErase s 0 1, some (stdByteAt s 0))

/-- Modelled from the spec: replace overwrites bytes in place starting at
offset k, failing when the replacement would run past the current length (it
never grows, spec section 4.3). -/
def std_string_replace (s : StdString) (b : List Nat) (k : Nat) : Option StdString :=
  if k + b.length ≤ s.m_length then
    some ⟨((stdContent s).take k ++ b ++ (stdContent s).drop (k + b.length)) ++ 0 ::
      s.m_buf.drop (s.m_length + 1), s.m_length⟩
  else none

/-- Modelled from the spec and test_string_clone_and_free: free deallocates
the heap buffer exactly when the heap representation is active (the returned
flag records whether deallocate was invoked) and leaves the handle in the
empty inline state: capacity K, null m_long pointer, length 0. -/
def std_string_free (s : StdString) : StdString × Bool :=
  (std_string_new, std_string_is_long s)

/-- The 24 bytes of the test phrase used throughout the unit tests. -/
def testPhrase : List Nat :=
  [84, 104, 105, 115, 32, 105, 115, 32, 97, 32,
   116, 101, 115, 116, 32, 116, 101, 115, 116, 32, 116, 101, 115, 116]

/-- The needle used by the search tests. -/
def testNeedle : List Nat := [116, 101, 115, 116]

theorem getD_append_cons (c t : List Nat) (v : Nat) :
    (c ++ v :: t).getD c.length 0 = v := by
  rw [List.getD_eq_getElem?_getD, List.getElem?_append_right (Nat.le_refl _)]
  simp

theorem wf_shape (c t : List Nat) (n : Nat) (hn : n = c.length)
    (h : sso ≤ c.length + t.length) : std_wf ⟨c ++ 0 :: t, n⟩ := by
  subst hn
  refine ⟨?_, ?_, ?_⟩
  · simp only [List.length_append, List.length_cons]
    omega
  · simp only [List.length_append, List.length_cons]
    omega
  · exact getD_append_cons c t 0

theorem content_shape (c t : List Nat) (v n : Nat) (hn : n = c.length) :
    stdContent ⟨c ++ v :: t, n⟩ = c := by
  subst hn
  exact List.take_left c (v :: t)

theorem capacity_shape (c t : List Nat) (v n : Nat) :
    std_string_capacity ⟨c ++ v :: t, n⟩ = c.length + t.length := by
  simp only [std_string_capacity, List.length_append, List.length_cons]
  omega

theorem length_content (s : StdString) (h : std_wf s) :
    (stdContent s).length = s.m_length := by
  obtain ⟨-, h2, -⟩ := h
  simp only [stdContent, List.length_take]
  omega

theorem wf_new : std_wf std_string_new := by decide

theorem wf_new_with_capacity (n : Nat) : std_wf (std_string_new_with_capacity n) := by
  have h : List.replicate (max n sso + 1) 0 = ([] : List Nat) ++ 0 :: List.replicate (max n sso) 0 := by
    simp [List.replicate_succ]
  unfold std_string_new_with_capacity
  rw [h]
  exact wf_shape [] _ 0 rfl (by simp only [List.length_nil, List.length_replicate]; omega)

theorem wf_from (b : List Nat) : std_wf (std_string_from b) := by
  unfold std_string_from
  split
  next h => exact wf_shape b _ _ rfl (by simp only [List.length_replicate]; omega)
  next h =>
    have hb : b ++ [0] = b ++ 0 :: ([] : List Nat) := rfl
    rw [hb]
    exact wf_shape b [] _ rfl (by simp only [List.length_nil]; omega)

theorem length_from (b : List Nat) : (std_string_from b).m_length = b.length := by
  unfold std_string_from
  split <;> rfl

theorem content_from (b : List Nat) : stdContent (std_string_from b) = b := by
  unfold std_string_from
  split
  next h => exact content_shape b _ 0 _ rfl
  next h =>
    have hb : b ++ [0] = b ++ 0 :: ([] : List Nat) := rfl
    rw [hb]
    exact content_shape b [] 0 _ rfl

theorem capacity_from (b : List Nat) :
    std_string_capacity (std_string_from b) = max b.length sso := by
  unfold std_string_from
  split
  next h =>
    rw [capacity_shape]
    simp only [List.length_replicate]
    omega
  next h =>
    have hb : b ++ [0] = b ++ 0 :: ([] : List Nat) := rfl
    rw [hb, capacity_shape]
    simp only [List.length_nil]
    omega

theorem terminator_from (b : List Nat) : stdByteAt (std_string_from b) b.length = 0 := by
  have h := (wf_from b).2.2
  rwa [length_from] at h

theorem wf_stdInsert (s : StdString) (b : List Nat) (k : Nat) (hw : std_wf s)
    (hk : k ≤ s.m_length) : std_wf (stdInsert s b k) := by
  have hc := length_content s hw
  obtain ⟨hb, hl, -⟩ := hw
  unfold stdInsert
  split
  next h =>
    simp only [std_string_capacity] at h
    apply wf_shape
    · simp only [List.length_append, List.length_take, List.length_drop, hc]
      omega
    · simp only [List.length_append, List.length_take, List.length_drop, hc]
      omega
  next h =>
    have hg1 : 2 * std_string_capacity s ≤ stdGrownCapacity s (s.m_length + b.length) :=
      Nat.le_max_left _ _
    have hg2 : s.m_length + b.length ≤ stdGrownCapacity s (s.m_length + b.length) :=
      Nat.le_max_right _ _
    simp only [std_string_capacity] at h hg1
    apply wf_shape
    · simp only [List.length_append, List.length_take, List.length_drop, hc]
      omega
    · simp only [List.length_append, List.length_take, List.length_drop,
        List.length_replicate, hc]
      omega

theorem length_stdInsert (s : StdString) (b : List Nat) (k : Nat) :
    (stdInsert s b k).m_length = s.m_length + b.length := by
  unfold stdInsert
  split <;> rfl

theorem content_stdInsert (s : StdString) (b : List Nat) (k : Nat) (hw : std_wf s)
    (hk : k ≤ s.m_length) :
    stdContent (stdInsert s b k) = (stdContent s).take k ++ b ++ (stdContent s).drop k := by
  have hc := length_content s hw
  unfold stdInsert
  split <;>
    exact content_shape _ _ 0 _
      (by simp only [List.length_append, List.length_take, List.length_drop, hc]; omega)

theorem wf_stdErase (s : StdString) (k n : Nat) (hw : std_wf s)
    (hkn : k + n ≤ s.m_length) : std_wf (stdErase s k n) := by
  have hc := length_content s hw
  obtain ⟨hb, hl, -⟩ := hw
  unfold stdErase
  apply wf_shape
  · simp only [List.length_append, List.length_take, List.length_drop, hc]
    omega
  · simp only [List.length_append, List.length_take, List.length_drop, hc]
    omega

theorem length_stdErase (s : StdString) (k n : Nat) :
    (stdErase s k n).m_length = s.m_length - n := rfl

theorem content_stdErase (s : StdString) (k n : Nat) (hw : std_wf s)
    (hkn : k + n ≤ s.m_length) :
    stdContent (stdErase s k n) = (stdContent s).take k ++ (stdContent s).drop (k + n) := by
  have hc := length_content s hw
  unfold stdErase
  exact content_shape _ _ 0 _
    (by simp only [List.length_append, List.length_take, List.length_drop, hc]; omega)

theorem wf_clear (s : StdString) (hw : std_wf s) : std_wf (std_string_clear s) := by
  obtain ⟨hb, hl, -⟩ := hw
  unfold std_string_clear
  have h0 : (0 : Nat) < s.m_buf.length := by omega
  rw [List.set_eq_take_cons_drop 0 h0]
  apply wf_shape
  · simp
  · simp only [List.length_take, List.length_drop]
    omega

theorem wf_fill (s : StdString) (c : Nat) (hw : std_wf s) : std_wf (std_string_fill s c) := by
  obtain ⟨hb, -, -⟩ := hw
  unfold std_string_fill
  rw [show List.replicate (std_string_capacity s) c ++ [0]
      = List.replicate (std_string_capacity s) c ++ 0 :: ([] : List Nat) from rfl]
  apply wf_shape
  · simp
  · simp only [List.length_replicate, List.length_nil, std_string_capacity]
    omega

theorem length_fill (s : StdString) (c : Nat) :
    (std_string_fill s c).m_length = std_string_capacity s := rfl

theorem capacity_fill (s : StdString) (c : Nat) :
    std_string_capacity (std_string_fill s c) = std_string_capacity s := by
  unfold std_string_fill
  rw [show List.replicate (std_string_capacity s) c ++ [0]
      = List.replicate (std_string_capacity s) c ++ 0 :: ([] : List Nat) from rfl]
  rw [capacity_shape]
  simp

theorem byteAt_fill (s : StdString) (c i : Nat) (hi : i < std_string_capacity s) :
    stdByteAt (std_string_fill s c) i = c := by
  unfold std_string_fill stdByteAt
  rw [List.getD_eq_getElem?_getD,
    List.getElem?_append_left (by simp only [List.length_replicate]; exact hi),
    List.getElem?_replicate]
  simp [hi]

theorem wf_shrink_to_fit (s : StdString) (hw : std_wf s) :
    std_wf (std_string_shrink_to_fit s) := by
  have hc := length_content s hw
  unfold std_string_shrink_to_fit
  split
  next h => exact wf_shape _ _ _ hc.symm (by simp only [List.length_replicate, hc]; omega)
  next h =>
    rw [show stdContent s ++ [0] = stdContent s ++ 0 :: ([] : List Nat) from rfl]
    exact wf_shape _ _ _ hc.symm (by simp only [List.length_nil, hc]; omega)

theorem length_shrink_to_fit (s : StdString) :
    (std_string_shrink_to_fit s).m_length = s.m_length := by
  unfold std_string_shrink_to_fit
  split <;> rfl

theorem content_shrink_to_fit (s : StdString) (hw : std_wf s) :
    stdContent (std_string_shrink_to_fit s) = stdContent s := by
  have hc := length_content s hw
  unfold std_string_shrink_to_fit
  split
  next h => exact content_shape _ _ 0 _ hc.symm
  next h =>
    rw [show stdContent s ++ [0] = stdContent s ++ 0 :: ([] : List Nat) from rfl]
    exact content_shape _ _ 0 _ hc.symm

theorem capacity_shrink_to_fit (s : StdString) (hw : std_wf s) :
    std_string_capacity (std_string_shrink_to_fit s) = max s.m_length sso := by
  have hc := length_content s hw
  unfold std_string_shrink_to_fit
  split
  next h =>
    rw [capacity_shape]
    simp only [List.length_replicate, hc]
    omega
  next h =>
    rw [show stdContent s ++ [0] = stdContent s ++ 0 :: ([] : List Nat) from rfl]
    rw [capacity_shape]
    simp only [List.length_nil, hc]
    omega

theorem wf_reserve (s : StdString) (n : Nat) (hw : std_wf s) :
    std_wf (std_string_reserve s n) := by
  have hc := length_content s hw
  unfold std_string_reserve
  split
  next h => exact hw
  next h =>
    obtain ⟨hb, hl, -⟩ := hw
    simp only [std_string_capacity] at h
    exact wf_shape _ _ _ hc.symm (by simp only [List.length_replicate, hc]; omega)

theorem wf_resize (s : StdString) (n : Nat) (hw : std_wf s) :
    std_wf (std_string_resize s n) := by
  have hc := length_content s hw
  obtain ⟨hb, hl, -⟩ := hw
  unfold std_string_resize
  split
  next h =>
    have hn : n < s.m_buf.length := by omega
    rw [List.set_eq_take_cons_drop 0 hn]
    apply wf_shape
    · simp only [List.length_take]
      omega
    · simp only [List.length_take, List.length_drop]
      omega
  next h =>
    split
    next h2 =>
      simp only [std_string_capacity] at h2
      apply wf_shape
      · simp only [List.length_append, List.length_take, List.length_replicate]
        omega
      · simp only [List.length_append, List.length_take, List.length_replicate,
          List.length_drop]
        omega
    next h2 =>
      have hg1 : 2 * std_string_capacity s ≤ stdGrownCapacity s n := Nat.le_max_left _ _
      have hg2 : n ≤ stdGrownCapacity s n := Nat.le_max_right _ _
      simp only [std_string_capacity] at h2 hg1
      apply wf_shape
      · simp only [List.length_append, List.length_replicate, hc]
        omega
      · simp only [List.length_append, List.length_replicate, hc]
        omega

theorem length_resize (s : StdString) (n : Nat) : (std_string_resize s n).m_length = n := by
  unfold std_string_resize
  split
  · rfl
  · split <;> rfl

theorem content_resize (s : StdString) (n : Nat) (hw : std_wf s) (h : s.m_length ≤ n) :
    stdContent (std_string_resize s n)
      = stdContent s ++ List.replicate (n - s.m_length) 0 := by
  have hc := length_content s hw
  obtain ⟨hb, hl, -⟩ := hw
  unfold std_string_resize
  split
  next h1 => omega
  next h1 =>
    split
    next h2 =>
      exact content_shape _ _ 0 _
        (by simp only [List.length_append, List.length_take, List.length_replicate]; omega)
    next h2 =>
      exact content_shape _ _ 0 _
        (by simp only [List.length_append, List.length_replicate, hc]; omega)

theorem wf_pop_back (s : StdString) (hw : std_wf s) :
    std_wf (std_string_pop_back s).1 := by
  unfold std_string_pop_back
  split
  next h => exact hw
  next h =>
    obtain ⟨hb, hl, -⟩ := hw
    have hn : s.m_length - 1 < s.m_buf.length := by omega
    simp only
    rw [List.set_eq_take_cons_drop 0 hn]
    apply wf_shape
    · simp only [List.length_take]
      omega
    · simp only [List.length_take, List.length_drop]
      omega

theorem wf_pop_front (s : StdString) (hw : std_wf s) :
    std_wf (std_string_pop_front s).1 := by
  unfold std_string_pop_front
  split
  next h => exact hw
  next h => exact wf_stdErase s 0 1 hw (by omega)

theorem wf_push_back (s : StdString) (c : Nat) (hw : std_wf s) :
    std_wf (std_string_push_back s c) :=
  wf_stdInsert s [c] s.m_length hw (Nat.le_refl _)

theorem wf_push_front (s : StdString) (c : Nat) (hw : std_wf s) :
    std_wf (std_string_push_front s c) :=
  wf_stdInsert s [c] 0 hw (Nat.zero_le _)

theorem wf_append (s : StdString) (b : List Nat) (hw : std_wf s) :
    std_wf (std_string_append s b) :=
  wf_stdInsert s b s.m_length hw (Nat.le_refl _)

theorem wf_prepend (s : StdString) (b : List Nat) (hw : std_wf s) :
    std_wf (std_string_prepend s b) :=
  wf_stdInsert s b 0 hw (Nat.zero_le _)

theorem wf_insert_some (s : StdString) (b : List Nat) (k : Nat) (t : StdString)
    (hw : std_wf s) (h : std_string_insert s b k = some t) : std_wf t := by
  unfold std_string_insert at h
  split at h
  next hk =>
    injection h with h
    exact h ▸ wf_stdInsert s b k hw hk
  next hk => exact absurd h (by simp)

theorem wf_erase_some (s : StdString) (k : Nat) (t : StdString)
    (hw : std_wf s) (h : std_string_erase s k = some t) : std_wf t := by
  unfold std_string_erase at h
  split at h
  next hk =>
    injection h with h
    exact h ▸ wf_stdErase s k 1 hw (by omega)
  next hk => exact absurd h (by simp)

theorem wf_erase_n_some (s : StdString) (k n : Nat) (t : StdString)
    (hw : std_wf s) (h : std_string_erase_n s k n = some t) : std_wf t := by
  unfold std_string_erase_n at h
  split at h
  next hk =>
    injection h with h
    exact h ▸ wf_stdErase s k n hw hk
  next hk => exact absurd h (by simp)

theorem wf_substring_some (s : StdString) (i n : Nat) (t : StdString)
    (h : std_string_substring s i n = some t) : std_wf t := by
  unfold std_string_substring at h
  split at h
  next hk =>
    injection h with h
    exact h ▸ wf_from _
  next hk => exact absurd h (by simp)

theorem wf_replace_some (s : StdString) (b : List Nat) (k : Nat) (t : StdString)
    (hw : std_wf s) (h : std_string_replace s b k = some t) : std_wf t := by
  have hc := length_content s hw
  obtain ⟨hb, hl, -⟩ := hw
  unfold std_string_replace at h
  split at h
  next hk =>
    injection h with h
    refine h ▸ wf_shape _ _ _ ?_ ?_
    · simp only [List.length_append, List.length_take, List.length_drop, hc]
      omega
    · simp only [List.length_append, List.length_take, List.length_drop, hc]
      omega
  next hk => exact absurd h (by simp)

theorem wf_clone (s : StdString) : std_wf (std_string_clone s) := wf_from _

theorem wf_first (s : StdString) (n : Nat) : std_wf (std_string_first s n) := wf_from _

theorem wf_last (s : StdString) (n : Nat) : std_wf (std_string_last s n) := wf_from _

theorem wf_concatenate (a b : StdString) : std_wf (std_string_concatenate a b) := wf_from _

theorem wf_free (s : StdString) : std_wf (std_string_free s).1 := wf_new

theorem byteAt_content (s : StdString) (i : Nat) (h : i < s.m_length) :
    stdByteAt s i = (stdContent s).getD i 0 := by
  unfold stdByteAt stdContent
  rw [List.getD_eq_getElem?_getD, List.getD_eq_getElem?_getD, List.getElem?_take]
  simp [h]

theorem getD_replicate_zero (m j : Nat) : (List.replicate m (0 : Nat)).getD j 0 = 0 := by
  rw [List.getD_eq_getElem?_getD, List.getElem?_replicate]
  split <;> simp

theorem takeWhile_append_replicate_zero (c : List Nat) (m : Nat) :
    (c ++ List.replicate m 0).takeWhile (fun b => b != 0)
      = c.takeWhile (fun b => b != 0) := by
  induction c with
  | nil =>
    simp only [List.nil_append, List.takeWhile_nil]
    cases m with
    | zero => rfl
    | succ m => simp [List.replicate_succ, List.takeWhile_cons]
  | cons a l ih =>
    by_cases ha : a = 0
    · subst ha
      simp [List.takeWhile_cons]
    · simp [List.takeWhile_cons, ha, ih]

theorem takeWhile_of_no_zero (b : List Nat) (h : 0 ∉ b) :
    b.takeWhile (fun v => v != 0) = b := by
  rw [List.takeWhile_eq_self_iff]
  intro x hx
  simp only [bne_iff_ne, ne_eq]
  intro hx0
  exact h (hx0 ▸ hx)

theorem into_cstring_from (b : List Nat) :
    std_string_into_cstring (std_string_from b) = b.takeWhile (fun v => v != 0) := by
  unfold std_string_into_cstring
  rw [content_from]

/-- C1: every handle produced by a public constructor satisfies the handle
invariant, and every public mutating operation preserves it: the length never
exceeds the capacity and the byte stored at offset length is the null
terminator 0, in whichever representation (inline or heap) is active. The
first conjunct spells the invariant out; the rest cover each modelled public
constructor and mutator. -/
theorem c1_construction_and_mutation_invariants :
    (∀ s : StdString, std_wf s →
      std_string_length s ≤ std_string_capacity s ∧ stdByteAt s (std_string_length s) = 0)
    ∧ std_wf std_string_new
    ∧ (∀ n, std_wf (std_string_new_with_capacity n))
    ∧ (∀ b, std_wf (std_string_from b))
    ∧ (∀ s, std_wf (std_string_clone s))
    ∧ (∀ s n, std_wf (std_string_first s n))
    ∧ (∀ s n, std_wf (std_string_last s n))
    ∧ (∀ s i n t, std_string_substring s i n = some t → std_wf t)
    ∧ (∀ a b, std_wf (std_string_concatenate a b))
    ∧ (∀ s c, std_wf s → std_wf (std_string_fill s c))
    ∧ (∀ s, std_wf s → std_wf (std_string_clear s))
    ∧ (∀ s, std_wf s → std_wf (std_string_shrink_to_fit s))
    ∧ (∀ s n, std_wf s → std_wf (std_string_reserve s n))
    ∧ (∀ s b k t, std_wf s → std_string_insert s b k = some t → std_wf t)
    ∧ (∀ s k t, std_wf s → std_string_erase s k = some t → std_wf t)
    ∧ (∀ s k n t, std_wf s → std_string_erase_n s k n = some t → std_wf t)
    ∧ (∀ s n, std_wf s → std_wf (std_string_resize s n))
    ∧ (∀ s c, std_wf s → std_wf (std_string_push_back s c))
    ∧ (∀ s c, std_wf s → std_wf (std_string_push_front s c))
    ∧ (∀ s, std_wf s → std_wf (std_string_pop_back s).1)
    ∧ (∀ s, std_wf s → std_wf (std_string_pop_front s).1)
    ∧ (∀ s b, std_wf s → std_wf (std_string_append s b))
    ∧ (∀ s b, std_wf s → std_wf (std_string_prepend s b))
    ∧ (∀ s b k t, std_wf s → std_string_replace s b k = some t → std_wf t)
    ∧ (∀ s, std_wf (std_string_free s).1) := by
  refine ⟨?_, wf_new, wf_new_with_capacity, wf_from, wf_clone, wf_first, wf_last,
    wf_substring_some, wf_concatenate, wf_fill, wf_clear, wf_shrink_to_fit, wf_reserve,
    wf_insert_some, wf_erase_some, wf_erase_n_some, wf_resize, wf_push_back, wf_push_front,
    wf_pop_back, wf_pop_front, wf_append, wf_prepend, wf_replace_some, wf_free⟩
  intro s hw
  refine ⟨?_, hw.2.2⟩
  have h := hw.2.1
  simp only [std_string_length, std_string_capacity]
  omega

/-- Witness for C1: the invariant evaluated after a concrete construction and
mutation, obtained from the clear conjunct of the theorem. -/
theorem c1_witness : std_wf (std_string_clear (std_string_from testPhrase)) := by
  obtain ⟨-, -, -, -, -, -, -, -, -, -, hclear, -⟩ := c1_construction_and_mutation_invariants
  exact hclear _ (by decide)

/-- C2 (counterexample): the test phrase of the spec scenario is 24 bytes
long, not 25, and find_last of the needle is 20, not 21 (the unit test
asserts find_last equals length minus 4). -/
theorem c2_counterexample :
    std_string_length (std_string_from testPhrase) ≠ 25
    ∧ std_string_find_last (std_string_from testPhrase) testNeedle ≠ some 21 := by decide

/-- C2 (amended): the string constructed from the test phrase has length 24
and capacity 24; find_first of the needle is 10 and find_last is 20;
substring(s, 8, 6) equals the string of the six bytes of the phrase fragment
starting at offset 8, and erase_n(s, 8, 7) on a fresh copy equals the
17-byte phrase with the seven bytes at offsets 8 to 14 removed. -/
theorem c2_concrete_scenario :
    std_string_length (std_string_from testPhrase) = 24
    ∧ std_string_capacity (std_string_from testPhrase) = 24
    ∧ std_string_find_first (std_string_from testPhrase) testNeedle = some 10
    ∧ std_string_find_last (std_string_from testPhrase) testNeedle = some 20
    ∧ (std_string_substring (std_string_from testPhrase) 8 6).map
        (fun t => std_string_equal t (std_string_from [97, 32, 116, 101, 115, 116]))
        = some true
    ∧ (std_string_erase_n (std_string_from testPhrase) 8 7).map
        (fun t => std_string_equal t (std_string_from
          [84, 104, 105, 115, 32, 105, 115, 32, 116, 101, 115, 116, 32, 116, 101, 115, 116]))
        = some true := by decide

/-- C3 (counterexample): from_bytes of a single byte reports the inline
capacity K, not the byte count 1, so capacity = length = byte count fails for
short inputs. -/
theorem c3_counterexample :
    std_string_length (std_string_from [116]) = 1
    ∧ std_string_capacity (std_string_from [116]) ≠ 1 := by decide

/-- C3 (amended): from_bytes(b) has length equal to the byte count, capacity
equal to the byte count whenever that count is at least the SSO constant K
(exact-fit heap allocation) and capacity K otherwise (inline representation),
and converting back to a raw null-terminated sequence yields exactly b for
any b without an embedded terminator. -/
theorem c3_from_bytes_exact_fit_round_trip :
    ∀ b : List Nat,
      std_string_length (std_string_from b) = b.length
      ∧ std_string_capacity (std_string_from b) = max b.length sso
      ∧ (0 ∉ b → std_string_into_cstring (std_string_from b) = b) := by
  intro b
  refine ⟨length_from b, capacity_from b, fun h => ?_⟩
  rw [into_cstring_from, takeWhile_of_no_zero b h]

/-- Witness for C3: the round-trip conjunct evaluated on a concrete byte
sequence. -/
theorem c3_witness : std_string_into_cstring (std_string_from [116, 101]) = [116, 101] :=
  (c3_from_bytes_exact_fit_round_trip [116, 101]).2.2 (by decide)

/-- C4: fill(s, c) sets length = capacity, keeps the capacity, and overwrites
every content byte up to the capacity with c; in the concrete scenario,
new() followed by fill with byte 116 yields length = capacity = K with every
byte 116. -/
theorem c4_fill_to_capacity :
    (∀ (s : StdString) (c : Nat),
      std_string_length (std_string_fill s c) = std_string_capacity s
      ∧ std_string_capacity (std_string_fill s c) = std_string_capacity s
      ∧ ∀ i, i < std_string_capacity s → stdByteAt (std_string_fill s c) i = c)
    ∧ (std_string_length (std_string_fill std_string_new 116) = sso
      ∧ std_string_capacity (std_string_fill std_string_new 116) = sso
      ∧ ∀ i, i < sso → stdByteAt (std_string_fill std_string_new 116) i = 116) := by
  constructor
  · intro s c
    exact ⟨length_fill s c, capacity_fill s c, fun i hi => byteAt_fill s c i hi⟩
  · refine ⟨by decide, by decide, fun i hi => ?_⟩
    exact byteAt_fill std_string_new 116 i
      (by rw [(by decide : std_string_capacity std_string_new = sso)]; exact hi)

/-- Witness for C4: the first filled byte of the concrete scenario. -/
theorem c4_witness : stdByteAt (std_string_fill std_string_new 116) 0 = 116 :=
  c4_fill_to_capacity.2.2.2 0 (by decide)

/-- C5 (counterexample): shrink_to_fit on a cleared heap-backed string leaves
the capacity at the SSO constant K, not at the length 0, so the claimed
capacity = length fails when the length is below K. -/
theorem c5_counterexample :
    std_string_capacity
        (std_string_shrink_to_fit (std_string_clear (std_string_from testPhrase)))
      ≠ std_string_length
        (std_string_shrink_to_fit (std_string_clear (std_string_from testPhrase))) := by decide

/-- C5 (amended): shrink_to_fit sets capacity = length when the length
exceeds the SSO constant K; when the length is at most K it demotes the
handle to the inline representation, whose capacity is the fixed K, with no
heap pointer active; the length and content are preserved. -/
theorem c5_shrink_to_fit :
    ∀ s : StdString, std_wf s →
      (sso < std_string_length s →
        std_string_capacity (std_string_shrink_to_fit s) = std_string_length s)
      ∧ (std_string_length s ≤ sso →
        std_string_capacity (std_string_shrink_to_fit s) = sso
        ∧ std_string_is_long (std_string_shrink_to_fit s) = false)
      ∧ std_string_length (std_string_shrink_to_fit s) = std_string_length s
      ∧ stdContent (std_string_shrink_to_fit s) = stdContent s := by
  intro s hw
  have hcap := capacity_shrink_to_fit s hw
  refine ⟨fun h => ?_, fun h => ⟨?_, ?_⟩, length_shrink_to_fit s, content_shrink_to_fit s hw⟩
  · simp only [std_string_length] at h ⊢
    rw [hcap]
    omega
  · simp only [std_string_length] at h
    rw [hcap]
    omega
  · simp only [std_string_length] at h
    simp only [std_string_is_long, hcap, decide_eq_false_iff_not]
    omega

/-- Witness for C5: shrinking the cleared heap string of the unit test leaves
capacity K. -/
theorem c5_witness :
    std_string_capacity
      (std_string_shrink_to_fit (std_string_clear (std_string_from testPhrase))) = sso :=
  ((c5_shrink_to_fit (std_string_clear (std_string_from testPhrase)) (by decide)).2.1
    (by decide)).1

/-- C6: for every well-formed handle s, byte sequence b and offset k at most
the length of s, insert(s, b, k) succeeds, erase_n of the same range on the
result succeeds, and the final string has the original content and length
(insert followed by erase_n of the inserted range is the identity on the
observable string). -/
theorem c6_insert_erase_identity :
    ∀ (s : StdString) (b : List Nat) (k : Nat), std_wf s → k ≤ std_string_length s →
      ∃ t u, std_string_insert s b k = some t
        ∧ std_string_erase_n t k b.length = some u
        ∧ stdContent u = stdContent s
        ∧ std_string_length u = std_string_length s := by
  intro s b k hw hk
  simp only [std_string_length] at hk ⊢
  have hc := length_content s hw
  have hwt := wf_stdInsert s b k hw hk
  refine ⟨stdInsert s b k, stdErase (stdInsert s b k) k b.length, ?_, ?_, ?_, ?_⟩
  · unfold std_string_insert
    rw [if_pos hk]
  · unfold std_string_erase_n
    rw [if_pos (by rw [length_stdInsert]; omega)]
  · rw [content_stdErase (stdInsert s b k) k b.length hwt (by rw [length_stdInsert]; omega)]
    rw [content_stdInsert s b k hw hk]
    have hA : ((stdContent s).take k).length = k := by
      rw [List.length_take]
      omega
    have hAB : ((stdContent s).take k ++ b).length = k + b.length := by
      rw [List.length_append, hA]
    rw [List.drop_left' hAB, List.append_assoc, List.take_left' hA]
    exact List.take_append_drop k (stdContent s)
  · rw [length_stdErase, length_stdInsert]
    omega

/-- Witness for C6: the identity evaluated on a concrete two-byte string with
a one-byte insertion at offset 1. -/
theorem c6_witness :
    ∃ t u, std_string_insert (std_string_from [97, 98]) [99] 1 = some t
      ∧ std_string_erase_n t 1 1 = some u
      ∧ stdContent u = stdContent (std_string_from [97, 98])
      ∧ std_string_length u = std_string_length (std_string_from [97, 98]) :=
  c6_insert_erase_identity (std_string_from [97, 98]) [99] 1 (by decide) (by decide)

/-- C7 (counterexample): at(s, length) does not fail: the unit test for
std_string_first asserts that indexing a length-4 string at offset 4 yields
the terminator byte 0, so at yields a byte at offset length. -/
theorem c7_counterexample :
    std_string_length (std_string_first (std_string_from testPhrase) 4) = 4
    ∧ std_string_at (std_string_first (std_string_from testPhrase) 4) 4 = some 0 := by decide

/-- C7 (amended): at(s, index) fails with an out-of-bounds error exactly when
index exceeds the length; for index at most the length it yields the stored
byte, and at offset length it yields the terminator 0. The model's at is a
pure observer, so no mutation accompanies the failure. -/
theorem c7_at_out_of_bounds :
    ∀ (s : StdString) (i : Nat), std_wf s →
      (std_string_length s < i → std_string_at s i = none)
      ∧ (i ≤ std_string_length s → std_string_at s i = some (stdByteAt s i))
      ∧ std_string_at s (std_string_length s) = some 0 := by
  intro s i hw
  simp only [std_string_length]
  unfold std_string_at
  refine ⟨fun h => ?_, fun h => ?_, ?_⟩
  · rw [if_neg (by omega)]
  · rw [if_pos h]
  · rw [if_pos (Nat.le_refl _)]
    exact congrArg some hw.2.2

/-- Witness for C7: an offset past the terminator of the concrete test string
fails. -/
theorem c7_witness : std_string_at (std_string_from testPhrase) 30 = none :=
  (c7_at_out_of_bounds (std_string_from testPhrase) 30 (by decide)).1 (by decide)

/-- C8: std_string_free leaves the handle in the empty inline state (equal to
new(): capacity K, no live heap pointer, length 0), so freeing the resulting
handle a second time is a no-op that performs no second deallocation (the
boolean records whether deallocate was invoked). -/
theorem c8_free_resets_handle :
    ∀ s : StdString,
      (std_string_free s).1 = std_string_new
      ∧ std_string_capacity (std_string_free s).1 = sso
      ∧ std_string_is_long (std_string_free s).1 = false
      ∧ std_string_length (std_string_free s).1 = 0
      ∧ (std_string_free (std_string_free s).1).2 = false
      ∧ (std_string_free (std_string_free s).1).1 = (std_string_free s).1 := by
  intro s
  refine ⟨rfl, ?_, ?_, rfl, ?_, rfl⟩
  · show std_string_capacity std_string_new = sso
    decide
  · show std_string_is_long std_string_new = false
    decide
  · show (std_string_free std_string_new).2 = false
    decide

/-- C9: growing resize zero-fills the newly exposed bytes, and the grown
string still compares equal via std_string_equal to any well-formed string
holding the pre-resize content, although the lengths differ: the equality
treats trailing zero padding as semantically absent. -/
theorem c9_resize_zero_fill_equal :
    ∀ (s t : StdString) (n : Nat), std_wf s → std_wf t →
      std_string_length s < n → stdContent t = stdContent s →
      (∀ i, std_string_length s ≤ i → i < n → stdByteAt (std_string_resize s n) i = 0)
      ∧ std_string_equal (std_string_resize s n) t = true := by
  intro s t n hw hwt hn hct
  simp only [std_string_length] at hn
  have hcr := content_resize s n hw (by omega)
  have hc := length_content s hw
  constructor
  · intro i h1 h2
    simp only [std_string_length] at h1
    rw [byteAt_content (std_string_resize s n) i (by rw [length_resize]; omega)]
    rw [hcr, List.getD_eq_getElem?_getD,
      List.getElem?_append_right (by rw [hc]; exact h1), List.getElem?_replicate]
    split <;> rfl
  · simp only [std_string_equal, decide_eq_true_eq]
    unfold std_string_into_cstring
    rw [hcr, hct, takeWhile_append_replicate_zero]

/-- Witness for C9: resizing the 9-byte prefix string of the unit test to 15
keeps it equal to its pre-resize form. -/
theorem c9_witness :
    std_string_equal
      (std_string_resize (std_string_from [84, 104, 105, 115, 32, 105, 115, 32, 97]) 15)
      (std_string_from [84, 104, 105, 115, 32, 105, 115, 32, 97]) = true :=
  (c9_resize_zero_fill_equal (std_string_from [84, 104, 105, 115, 32, 105, 115, 32, 97])
    (std_string_from [84, 104, 105, 115, 32, 105, 115, 32, 97]) 15
    (by decide) (by decide) (by decide) rfl).2

/-- C10: for every well-formed handle s and count n at most the length,
first(s, n) is a fresh string of length n holding the first n bytes of s
with the terminator 0 at offset n, and last(s, n) is a fresh string of
length n holding the final n bytes of s with the terminator 0 at offset n. -/
theorem c10_first_last :
    ∀ (s : StdString) (n : Nat), std_wf s → n ≤ std_string_length s →
      (std_string_length (std_string_first s n) = n
        ∧ stdContent (std_string_first s n) = (stdContent s).take n
        ∧ stdByteAt (std_string_first s n) n = 0)
      ∧ (std_string_length (std_string_last s n) = n
        ∧ stdContent (std_string_last s n) = (stdContent s).drop (std_string_length s - n)
        ∧ stdByteAt (std_string_last s n) n = 0) := by
  intro s n hw hn
  have hc := length_content s hw
  simp only [std_string_length] at hn ⊢
  have hfl : ((stdContent s).take n).length = n := by
    rw [List.length_take]
    omega
  have hll : ((stdContent s).drop (s.m_length - n)).length = n := by
    rw [List.length_drop]
    omega
  constructor
  · refine ⟨?_, content_from _, ?_⟩
    · show (std_string_from ((stdContent s).take n)).m_length = n
      rw [length_from, hfl]
    · have h := terminator_from ((stdContent s).take n)
      rwa [hfl] at h
  · refine ⟨?_, content_from _, ?_⟩
    · show (std_string_from ((stdContent s).drop (s.m_length - n))).m_length = n
      rw [length_from, hll]
    · have h := terminator_from ((stdContent s).drop (s.m_length - n))
      rwa [hll] at h

/-- Witness for C10: first on the concrete test string yields a length-4
string. -/
theorem c10_witness :
    std_string_length (std_string_first (std_string_from testPhrase) 4) = 4 :=
  ((c10_first_last (std_string_from testPhrase) 4 (by decide) (by decide)).1).1

end C2nxt
